import Mathlib

/-!
Verification development for the aiogram-metrics telemetry recorder
(src/aiogram-metrics/main.py, class `Metrics`).

The Redis-backed store is shallowly embedded:
* `metrics:total_users`  — a Redis set of chat ids  ⇒ `Finset Int`;
* `metrics:last_seen`    — a Redis hash chat id → stored string value
  ⇒ an association list `List (Int × LastVal)` where `LastVal` records
  whether the stored string parses via Python `int(float(ts))`;
* `metrics:msgs_total`, `metrics:cmds_total` — INCR counters ⇒ `Nat`;
* `metrics:events`       — a Redis sorted set whose member is `str(now)`
  and whose score is `now`; since `str` is injective on integers and the
  member determines the score, this is a set of integer timestamps
  ⇒ `Finset Int`.  `ZADD` with an already-present member coalesces.

Redis range commands are inclusive on both ends unless a bound is
prefixed with an open-interval marker, which the source never does:
`zremrangebyscore(k, "-inf", b)` removes every score `≤ b`, and
`zcount(k, lo, hi)` counts scores in the closed interval `[lo, hi]`.
-/

/-- A value stored in the `metrics:last_seen` hash, as seen by the
snapshot scan: either it parses via Python `int(float(ts))` to an
integer, or the parse raises (a malformed stored timestamp). -/
inductive LastVal where
  | ts (v : Int)
  | malformed
deriving DecidableEq

/-- The shared Redis store state used by class `Metrics`. -/
structure Store where
  users : Finset Int
  lastSeen : List (Int × LastVal)
  msgsTotal : Nat
  cmdsTotal : Nat
  events : Finset Int
deriving DecidableEq

/-- The empty store: every key absent (absent reads as zero/empty). -/
def Store.empty : Store := ⟨∅, [], 0, 0, ∅⟩

/-- Redis `HSET m k v`: overwrite the entry for key `k` if present,
otherwise append a fresh entry. -/
def hset (m : List (Int × LastVal)) (k : Int) (v : LastVal) :
    List (Int × LastVal) :=
  if k ∈ m.map Prod.fst then
    m.map (fun p => if p.1 = k then (k, v) else p)
  else
    m ++ [(k, v)]

/-- Embedding of `Metrics.note_message(chat_id, is_command, now)` (main.py lines
60–68), with all five pipelined commands landing: `SADD` the chat id,
`HSET` the last-seen hash, `INCR` the message counter, `ZADD` the event
index with member `str(now)` / score `now`, and, when `is_command`,
`INCR` the command counter. -/
def note_message (s : Store) (chat_id : Int) (is_command : Bool)
    (now : Int) : Store :=
  { users := insert chat_id s.users
    lastSeen := hset s.lastSeen chat_id (LastVal.ts now)
    msgsTotal := s.msgsTotal + 1
    cmdsTotal := if is_command then s.cmdsTotal + 1 else s.cmdsTotal
    events := insert now s.events }

/-- Embedding of `Metrics.prune_events(before_ts)` (main.py lines 70–71):
`ZREMRANGEBYSCORE k_events -inf before_ts` removes every entry with
score in the closed range `(-∞, before_ts]`, i.e. keeps exactly the
entries with `before_ts < t`. -/
def prune_events (s : Store) (before_ts : Int) : Store :=
  { s with events := s.events.filter (fun t => before_ts < t) }

/-- The dictionary returned by `Metrics.snapshot` (main.py lines
87–93). -/
structure Snap where
  total_users : Nat
  msgs_total : Nat
  cmds_total : Nat
  rpm_1m : Nat
  active_users_5m : Nat
deriving DecidableEq

/-- One step of the `for ts in last_seen.values()` scan (main.py lines
81–86): a value that parses to `v` counts when `now - v <= 300`; a
value whose parse raises is skipped by the `except: continue`. -/
def activeVal (now : Int) : LastVal → Bool
  | LastVal.ts v => decide (now - v ≤ 300)
  | LastVal.malformed => false

/-- Embedding of `Metrics.snapshot(now)` (main.py lines 73–93): prune the event
index at `now - 600`, then read the five fields; returns the snapshot
dictionary together with the post-prune store (the prune is the only
store mutation a snapshot performs). -/
def snapshot (s : Store) (now : Int) : Snap × Store :=
  let s1 := prune_events s (now - 600)
  ({ total_users := s1.users.card
     msgs_total := s1.msgsTotal
     cmds_total := s1.cmdsTotal
     rpm_1m := (s1.events.filter (fun t => now - 60 ≤ t ∧ t ≤ now)).card
     active_users_5m := (s1.lastSeen.map Prod.snd).countP (activeVal now) },
   s1)

/-- A call against the store: either a `note_message` (a record) or a
`snapshot` (whose only store effect is the prune). -/
inductive Call where
  | record (chat_id : Int) (is_command : Bool) (now : Int)
  | snap (now : Int)

/-- Store effect of one call. -/
def applyCall (s : Store) : Call → Store
  | Call.record c b n => note_message s c b n
  | Call.snap n => (snapshot s n).2

/-- Run a sequence of calls against a store. -/
def runCalls (s : Store) (cs : List Call) : Store := cs.foldl applyCall s

/-- Whether a call is a `record`. -/
def isRecordCall : Call → Bool
  | Call.record _ _ _ => true
  | Call.snap _ => false

/-- Whether a call is a `record` with `is_command = true`. -/
def isNotableRecord : Call → Bool
  | Call.record _ b _ => b
  | Call.snap _ => false

/-- The chat id of a `record` call, if any. -/
def recordChat : Call → Option Int
  | Call.record c _ _ => some c
  | Call.snap _ => none

/-- The store commands queued by `note_message`, in pipeline order
(main.py lines 62–67): `SADD`, `HSET`, `INCR` messages, `ZADD`, and —
only when `is_command` — `INCR` commands. -/
def noteOps (chat_id : Int) (is_command : Bool) (now : Int) :
    List (Store → Store) :=
  [fun s => { s with users := insert chat_id s.users },
   fun s => { s with lastSeen := hset s.lastSeen chat_id (LastVal.ts now) },
   fun s => { s with msgsTotal := s.msgsTotal + 1 },
   fun s => { s with events := insert now s.events }]
  ++ (if is_command then
        [fun s => { s with cmdsTotal := s.cmdsTotal + 1 }] else [])

/-- Execution of the batch built by `self.r.pipeline(transaction=False)`
(main.py line 61).  A non-transactional redis pipeline sends the queued
commands as one round trip but each command executes independently on
the server: a command that fails leaves the store unchanged while the
remaining commands still execute, and `execute()` raises afterwards iff
some command failed.  The Boolean paired with each command says whether
that command fails; the result is the final store and whether the
caller observes an error. -/
def execPipeline : List ((Store → Store) × Bool) → Store → Store × Bool
  | [], s => (s, false)
  | (op, f) :: rest, s =>
      let r := execPipeline rest (if f then s else op s)
      (r.1, f || r.2)

/-! ### Helper lemmas -/

theorem snapshot_snd (s : Store) (now : Int) :
    (snapshot s now).2 = prune_events s (now - 600) := rfl

theorem prune_events_idem (s : Store) (b : Int) :
    prune_events (prune_events s b) b = prune_events s b := by
  show Store.mk _ _ _ _ _ = Store.mk _ _ _ _ _
  simp [prune_events, Finset.filter_filter]

theorem execPipeline_err : ∀ (ops : List (Store → Store))
    (fails : List Bool) (s : Store), fails.length = ops.length →
    (execPipeline (ops.zip fails) s).2 = fails.any id
  | [], [], _, _ => rfl
  | op :: ops, f :: fails, s, h => by
      simp only [List.zip_cons_cons, execPipeline, List.any_cons, id]
      exact congrArg (fun x => f || x)
        (execPipeline_err ops fails (if f then s else op s) (by simpa using h))

theorem execPipeline_ok : ∀ (ops : List (Store → Store))
    (fails : List Bool) (s : Store), fails.length = ops.length →
    (∀ x ∈ fails, x = false) →
    (execPipeline (ops.zip fails) s).1 =
      ops.foldl (fun st op => op st) s
  | [], [], _, _, _ => rfl
  | op :: ops, f :: fails, s, h, hall => by
      have hf : f = false := hall f (List.mem_cons_self f fails)
      subst hf
      simp only [List.zip_cons_cons, execPipeline, List.foldl_cons,
        if_neg Bool.false_ne_true]
      exact execPipeline_ok ops fails (op s) (by simpa using h)
        (fun x hx => hall x (List.mem_cons_of_mem _ hx))

theorem noteOps_foldl (c : Int) (b : Bool) (n : Int) (s : Store) :
    (noteOps c b n).foldl (fun st op => op st) s = note_message s c b n := by
  cases b <;> rfl

theorem runCalls_msgsTotal : ∀ (cs : List Call) (s : Store),
    (runCalls s cs).msgsTotal = s.msgsTotal + cs.countP isRecordCall
  | [], _ => by simp [runCalls]
  | Call.record c b n :: cs, s => by
      have ih := runCalls_msgsTotal cs (note_message s c b n)
      simp only [runCalls, List.foldl_cons] at ih ⊢
      rw [show applyCall s (Call.record c b n) = note_message s c b n from rfl,
        ih, List.countP_cons]
      simp [note_message, isRecordCall]
      omega
  | Call.snap n :: cs, s => by
      have ih := runCalls_msgsTotal cs (prune_events s (n - 600))
      simp only [runCalls, List.foldl_cons] at ih ⊢
      rw [show applyCall s (Call.snap n) = prune_events s (n - 600) from rfl, ih,
        List.countP_cons]
      simp [prune_events, isRecordCall]

theorem runCalls_cmdsTotal : ∀ (cs : List Call) (s : Store),
    (runCalls s cs).cmdsTotal = s.cmdsTotal + cs.countP isNotableRecord
  | [], _ => by simp [runCalls]
  | Call.record c b n :: cs, s => by
      have ih := runCalls_cmdsTotal cs (note_message s c b n)
      simp only [runCalls, List.foldl_cons] at ih ⊢
      rw [show applyCall s (Call.record c b n) = note_message s c b n from rfl,
        ih, List.countP_cons]
      cases b <;> (simp [note_message, isNotableRecord]; try omega)
  | Call.snap n :: cs, s => by
      have ih := runCalls_cmdsTotal cs (prune_events s (n - 600))
      simp only [runCalls, List.foldl_cons] at ih ⊢
      rw [show applyCall s (Call.snap n) = prune_events s (n - 600) from rfl, ih,
        List.countP_cons]
      simp [prune_events, isNotableRecord]

theorem runCalls_users : ∀ (cs : List Call) (s : Store),
    (runCalls s cs).users = s.users ∪ (cs.filterMap recordChat).toFinset
  | [], s => by simp [runCalls]
  | Call.record c b n :: cs, s => by
      have ih := runCalls_users cs (note_message s c b n)
      simp only [runCalls, List.foldl_cons] at ih ⊢
      rw [show applyCall s (Call.record c b n) = note_message s c b n from rfl, ih]
      simp only [List.filterMap_cons, recordChat, note_message, List.toFinset_cons]
      rw [Finset.insert_union, Finset.union_insert]
  | Call.snap n :: cs, s => by
      have ih := runCalls_users cs (prune_events s (n - 600))
      simp only [runCalls, List.foldl_cons] at ih ⊢
      rw [show applyCall s (Call.snap n) = prune_events s (n - 600) from rfl, ih]
      simp [prune_events, List.filterMap_cons, recordChat]

theorem overwrite_keys (k : Int) (v : LastVal) :
    ∀ (m : List (Int × LastVal)),
      (m.map (fun p => if p.1 = k then (k, v) else p)).map Prod.fst =
        m.map Prod.fst
  | [] => rfl
  | p :: m => by
      by_cases hp : p.1 = k <;> simp [hp, overwrite_keys k v m]

theorem hset_keys (m : List (Int × LastVal)) (k : Int) (v : LastVal) :
    (hset m k v).map Prod.fst =
      if k ∈ m.map Prod.fst then m.map Prod.fst
      else m.map Prod.fst ++ [k] := by
  unfold hset
  split
  case isTrue h => exact overwrite_keys k v m
  case isFalse h => simp

theorem mem_hset (m : List (Int × LastVal)) (k : Int) (v w : LastVal)
    (j : Int) (h : (j, w) ∈ hset m k v) :
    (j, w) ∈ m ∨ j = k := by
  unfold hset at h
  split at h
  · rcases List.mem_map.mp h with ⟨p, hp, hpe⟩
    by_cases hpk : p.1 = k
    · simp only [if_pos hpk] at hpe
      right
      exact (Prod.mk.injEq _ _ _ _ ▸ hpe.symm).1.symm ▸ rfl
    · simp only [if_neg hpk] at hpe
      left
      exact hpe ▸ hp
  · rcases List.mem_append.mp h with h1 | h1
    · exact Or.inl h1
    · right
      have := List.mem_singleton.mp h1
      exact (Prod.mk.injEq _ _ _ _ ▸ this).1

/-- The invariant maintained by every `Metrics` call: the last-seen
hash has one entry per chat id, and every chat id in the hash has been
added to the users set (each `note_message` writes both in the same
pipeline, and nothing removes from the set). -/
def StoreInv (s : Store) : Prop :=
  (s.lastSeen.map Prod.fst).Nodup ∧ ∀ p ∈ s.lastSeen, p.1 ∈ s.users

theorem storeInv_empty : StoreInv Store.empty := by
  constructor
  · simp [Store.empty]
  · intro p hp
    simp [Store.empty] at hp

theorem storeInv_note (s : Store) (c : Int) (b : Bool) (n : Int)
    (h : StoreInv s) : StoreInv (note_message s c b n) := by
  obtain ⟨hn, hm⟩ := h
  constructor
  · show ((hset s.lastSeen c (LastVal.ts n)).map Prod.fst).Nodup
    rw [hset_keys]
    split
    · exact hn
    case isFalse hc => simp [List.nodup_append, hn, hc]
  · rintro ⟨j, w⟩ hp
    rcases mem_hset s.lastSeen c (LastVal.ts n) w j hp with h1 | h1
    · exact Finset.mem_insert_of_mem (hm _ h1)
    · exact h1 ▸ Finset.mem_insert_self _ _

theorem storeInv_runCalls : ∀ (cs : List Call) (s : Store),
    StoreInv s → StoreInv (runCalls s cs)
  | [], _, h => h
  | Call.record c b n :: cs, s, h =>
      storeInv_runCalls cs (note_message s c b n) (storeInv_note s c b n h)
  | Call.snap n :: cs, s, h =>
      storeInv_runCalls cs (prune_events s (n - 600)) ⟨h.1, h.2⟩

theorem active_le_total_of_inv (s : Store) (now : Int) (h : StoreInv s) :
    (snapshot s now).1.active_users_5m ≤ (snapshot s now).1.total_users := by
  obtain ⟨hn, hm⟩ := h
  show (s.lastSeen.map Prod.snd).countP (activeVal now) ≤ s.users.card
  have h1 : (s.lastSeen.map Prod.snd).countP (activeVal now) ≤
      s.lastSeen.length := by
    have := List.countP_le_length (p := activeVal now)
      (l := s.lastSeen.map Prod.snd)
    simpa using this
  have h2 : (s.lastSeen.map Prod.fst).toFinset.card = s.lastSeen.length := by
    rw [List.toFinset_card_of_nodup hn, List.length_map]
  have h3 : (s.lastSeen.map Prod.fst).toFinset ⊆ s.users := by
    intro x hx
    rw [List.mem_toFinset] at hx
    rcases List.mem_map.mp hx with ⟨p, hp, hpx⟩
    exact hpx ▸ hm p hp
  calc (s.lastSeen.map Prod.snd).countP (activeVal now)
      ≤ s.lastSeen.length := h1
    _ = (s.lastSeen.map Prod.fst).toFinset.card := h2.symm
    _ ≤ s.users.card := Finset.card_le_card h3

/-! ### Claims -/

/-- C1 counterexample.  In the end-to-end scenario (3 records for
subject 1 at second 1000, the first two notable, then 1 record for
subject 2 at second 1000), the snapshot at 1000 reports
`rate_events_per_minute = 1`, not 4 as claimed: all four `ZADD`s use
the member `str(1000)`, so the event-time index coalesces them into a
single entry. -/
theorem end_to_end_cex :
    ((snapshot (runCalls Store.empty
        [Call.record 1 true 1000, Call.record 1 true 1000,
         Call.record 1 false 1000, Call.record 2 false 1000]) 1000).1.rpm_1m
       ≠ 4)
    ∧ (snapshot (runCalls Store.empty
        [Call.record 1 true 1000, Call.record 1 true 1000,
         Call.record 1 false 1000, Call.record 2 false 1000]) 1000).1.rpm_1m
       = 1 := by
  decide

/-- C1 (amended).  End-to-end scenario: from the empty store, after 3
records for subject `a` within second `t` (2 notable) and one record
for subject `b` at second `t` (not notable), `snapshot t` returns
`total_subjects = 2`, `lifetime_messages = 4`, `lifetime_commands = 2`,
`rate_events_per_minute = 1` (the four same-second events coalesce to
one index entry), and `active_subjects_5m = 2`. -/
theorem end_to_end (a b t : Int) (h : a ≠ b) :
    (snapshot (runCalls Store.empty
      [Call.record a true t, Call.record a true t,
       Call.record a false t, Call.record b false t]) t).1 =
    ⟨2, 4, 2, 1, 2⟩ := by
  have hba : ¬(b = a) := fun e => h e.symm
  have e4 : runCalls Store.empty
      [Call.record a true t, Call.record a true t,
       Call.record a false t, Call.record b false t] =
      { users := insert b {a}
        lastSeen := [(a, LastVal.ts t), (b, LastVal.ts t)]
        msgsTotal := 4
        cmdsTotal := 2
        events := {t} } := by
    simp only [runCalls, List.foldl_cons, List.foldl_nil, applyCall]
    simp [note_message, hset, Store.empty, hba, Finset.insert_idem]
  rw [e4]
  have hprune : ({t} : Finset Int).filter (fun x => t - 600 < x) = {t} := by
    rw [Finset.filter_singleton, if_pos (by omega)]
  have hrpm : ({t} : Finset Int).filter (fun x => t - 60 ≤ x ∧ x ≤ t) = {t} := by
    rw [Finset.filter_singleton, if_pos ⟨by omega, le_refl t⟩]
  simp only [snapshot, prune_events, Snap.mk.injEq]
  refine ⟨?_, trivial, trivial, ?_, ?_⟩
  · rw [Finset.card_insert_of_not_mem (by simp [hba]), Finset.card_singleton]
  · rw [hprune, hrpm, Finset.card_singleton]
  · norm_num [activeVal]

/-- C1 witness: the amended end-to-end scenario at `a = 1`, `b = 2`,
`t = 1000`. -/
theorem end_to_end_witness :
    (snapshot (runCalls Store.empty
      [Call.record 1 true 1000, Call.record 1 true 1000,
       Call.record 1 false 1000, Call.record 2 false 1000]) 1000).1 =
    ⟨2, 4, 2, 1, 2⟩ :=
  end_to_end 1 2 1000 (by decide)


/-- C2 counterexample.  `ZREMRANGEBYSCORE k -inf before_ts` is
inclusive of `before_ts`: after recording an event at second 400, the
snapshot at `now = 1000` removes the index entry whose timestamp equals
`now - 600 = 400`, so that entry does not survive the prune as
claimed. -/
theorem prune_boundary_cex :
    ((400 : Int) ∈ (note_message Store.empty 1 false 400).events)
    ∧ (400 : Int) ∉
        ((snapshot (note_message Store.empty 1 false 400) 1000).2).events := by
  decide

/-- C2 (amended).  During every `snapshot now`, exactly the event-time
index entries with timestamp less than or equal to `now - 600` are
removed: an entry survives the prune iff it was present and its
timestamp is strictly greater than `now - 600` (so the entry at exactly
`now - 600` is removed, while one at `now - 599` survives). -/
theorem prune_boundary (s : Store) (now t : Int) :
    t ∈ ((snapshot s now).2).events ↔ t ∈ s.events ∧ now - 600 < t := by
  simp [snapshot, prune_events]

/-- C3 counterexample.  The five commands of a `record` call are issued
through `pipeline(transaction=False)` — a non-transactional batch.  If
the third command (the message-counter `INCR`) fails while the others
succeed, the caller observes a hard failure, yet the store still
carries some of the effects of the call: the subject was added to the
users set.  So a failing `record` is not all-or-nothing. -/
theorem record_atomicity_cex :
    ((execPipeline ((noteOps 1 false 10).zip [false, false, true, false])
        Store.empty).2 = true)
    ∧ (execPipeline ((noteOps 1 false 10).zip [false, false, true, false])
        Store.empty).1.users = {1}
    ∧ (execPipeline ((noteOps 1 false 10).zip [false, false, true, false])
        Store.empty).1.msgsTotal = 0 := by
  decide

/-- C3 (amended).  Each `record` call issues its five store commands as
one non-transactional pipeline: the caller observes a hard failure iff
at least one command fails, and when no command fails all five effects
land (the call then equals `note_message`); but the commands execute
independently, so a failing call can leave the effects of the
non-failing commands applied. -/
theorem record_pipeline (c : Int) (b : Bool) (n : Int) (s : Store)
    (fails : List Bool) (h : fails.length = (noteOps c b n).length) :
    ((execPipeline ((noteOps c b n).zip fails) s).2 = fails.any id)
    ∧ ((∀ x ∈ fails, x = false) →
        (execPipeline ((noteOps c b n).zip fails) s).1 =
          note_message s c b n) := by
  constructor
  · exact execPipeline_err (noteOps c b n) fails s h
  · intro hall
    rw [execPipeline_ok (noteOps c b n) fails s h hall, noteOps_foldl]

/-- C3 witness: the amended pipeline semantics at a concrete failure-free
call. -/
theorem record_pipeline_witness :
    ((execPipeline ((noteOps 1 true 7).zip
        [false, false, false, false, false]) Store.empty).2 =
      [false, false, false, false, false].any id)
    ∧ (execPipeline ((noteOps 1 true 7).zip
        [false, false, false, false, false]) Store.empty).1 =
      note_message Store.empty 1 true 7 :=
  ⟨(record_pipeline 1 true 7 Store.empty
      [false, false, false, false, false] (by decide)).1,
   (record_pipeline 1 true 7 Store.empty
      [false, false, false, false, false] (by decide)).2 (by decide)⟩

/-- C4 (confirmed).  For every sequence of calls applied to the empty
store (records interleaved with snapshots in any order), the lifetime
message counter read by the final snapshot equals the number of record
calls and the lifetime command counter equals the number of record
calls with `is_command = true`; moreover a snapshot call changes
neither counter. -/
theorem monotonic_counters (cs : List Call) (s : Store) (now : Int) :
    ((snapshot (runCalls Store.empty cs) now).1.msgs_total =
        cs.countP isRecordCall)
    ∧ ((snapshot (runCalls Store.empty cs) now).1.cmds_total =
        cs.countP isNotableRecord)
    ∧ ((snapshot s now).2.msgsTotal = s.msgsTotal
        ∧ (snapshot s now).2.cmdsTotal = s.cmdsTotal) := by
  refine ⟨?_, ?_, rfl, rfl⟩
  · show (runCalls Store.empty cs).msgsTotal = cs.countP isRecordCall
    rw [runCalls_msgsTotal]
    simp [Store.empty]
  · show (runCalls Store.empty cs).cmdsTotal = cs.countP isNotableRecord
    rw [runCalls_cmdsTotal]
    simp [Store.empty]

/-- C5 (confirmed).  For every sequence of calls applied to the empty
store, `total_subjects` returned by the final snapshot equals the
number of distinct subject ids among the record calls (the users set
deduplicates, so recording a subject more than once contributes exactly
1). -/
theorem set_semantics (cs : List Call) (now : Int) :
    (snapshot (runCalls Store.empty cs) now).1.total_users =
      (cs.filterMap recordChat).toFinset.card := by
  show (runCalls Store.empty cs).users.card = _
  rw [runCalls_users]
  simp [Store.empty]

/-- C6 (confirmed).  The last-seen scan of `snapshot now` counts an
entry with parsed value `v` iff `now - v <= 300`: appending one more
entry to the hash adds 1 to `active_subjects_5m` exactly when
`now - v <= 300`; in particular a store whose hash holds one subject
last seen at `now - 290` and one last seen at `now - 301` reports
`active_subjects_5m = 1`. -/
theorem active_window (s : Store) (now v k k1 k2 : Int) :
    ((snapshot { s with lastSeen := (k, LastVal.ts v) :: s.lastSeen }
        now).1.active_users_5m =
      (snapshot s now).1.active_users_5m +
        (if now - v ≤ 300 then 1 else 0))
    ∧ (snapshot { s with lastSeen :=
          [(k1, LastVal.ts (now - 290)), (k2, LastVal.ts (now - 301))] }
        now).1.active_users_5m = 1 := by
  constructor
  · show (((k, LastVal.ts v) :: s.lastSeen).map Prod.snd).countP
        (activeVal now) =
      (s.lastSeen.map Prod.snd).countP (activeVal now) + _
    simp [List.countP_cons, activeVal]
  · show ([LastVal.ts (now - 290), LastVal.ts (now - 301)]).countP
        (activeVal now) = 1
    have h1 : now - (now - 290) ≤ 300 := by omega
    have h2 : ¬(now - (now - 301) ≤ 300) := by omega
    simp [List.countP_cons, activeVal, h1, h2]

/-- C7 (confirmed).  A last-seen entry whose stored value does not
parse as a timestamp is skipped by the `except: continue` branch: the
snapshot still returns (the scan is total), the malformed entry
contributes 0 to `active_subjects_5m`, and every other field — and the
count over the remaining well-formed entries — is unchanged. -/
theorem malformed_skip (s : Store) (now k : Int) :
    (snapshot { s with lastSeen := (k, LastVal.malformed) :: s.lastSeen }
        now).1 = (snapshot s now).1 := by
  show Snap.mk _ _ _ _ _ = Snap.mk _ _ _ _ _
  simp [snapshot, prune_events, List.countP_cons, activeVal]

/-- C8 (confirmed).  `snapshot` at a fixed `now` is idempotent: running
it again on the store it left behind returns the same five values and
leaves the store unchanged (the second prune removes nothing). -/
theorem snapshot_idem (s : Store) (now : Int) :
    snapshot ((snapshot s now).2) now = snapshot s now := by
  show snapshot (prune_events s (now - 600)) now = snapshot s now
  simp only [snapshot]
  rw [prune_events_idem]

/-- C9 (confirmed).  The event-time index holds at most one entry per
integer second: `ZADD` of a timestamp already present leaves the index
unchanged, and consequently every snapshot reports
`rate_events_per_minute <= 61` (the inclusive window `[now-60, now]`
holds at most 61 distinct integers). -/
theorem same_second_rate (s : Store) (c : Int) (b : Bool) (n now : Int) :
    (n ∈ s.events → (note_message s c b n).events = s.events)
    ∧ (snapshot s now).1.rpm_1m ≤ 61 := by
  constructor
  · intro hn
    show insert n s.events = s.events
    exact Finset.insert_eq_self.mpr hn
  · show ((s.events.filter (fun t => now - 600 < t)).filter
        (fun t => now - 60 ≤ t ∧ t ≤ now)).card ≤ 61
    have hsub : (s.events.filter (fun t => now - 600 < t)).filter
        (fun t => now - 60 ≤ t ∧ t ≤ now) ⊆ Finset.Icc (now - 60) now := by
      intro x hx
      rw [Finset.mem_filter] at hx
      rw [Finset.mem_Icc]
      exact hx.2
    calc ((s.events.filter (fun t => now - 600 < t)).filter
        (fun t => now - 60 ≤ t ∧ t ≤ now)).card
        ≤ (Finset.Icc (now - 60) now).card := Finset.card_le_card hsub
      _ = 61 := by rw [Int.card_Icc]; omega

/-- C9 witness: a second record at an already-present second leaves the
index unchanged, and a concrete snapshot reports a rate below 61. -/
theorem same_second_rate_witness :
    ((note_message (note_message Store.empty 1 false 5) 2 true 5).events =
      (note_message Store.empty 1 false 5).events)
    ∧ (snapshot (note_message Store.empty 1 false 5) 5).1.rpm_1m ≤ 61 :=
  ⟨(same_second_rate (note_message Store.empty 1 false 5) 2 true 5 5).1
      (by decide),
   (same_second_rate (note_message Store.empty 1 false 5) 2 true 5 5).2⟩

/-- C10 (confirmed).  In every store reachable from the empty store by
record and snapshot calls, every key of the last-seen hash is a member
of the users set, and therefore every snapshot reports
`active_subjects_5m <= total_subjects`. -/
theorem lastseen_keys_known (cs : List Call) (now : Int) :
    (∀ p ∈ (runCalls Store.empty cs).lastSeen,
        p.1 ∈ (runCalls Store.empty cs).users)
    ∧ (snapshot (runCalls Store.empty cs) now).1.active_users_5m ≤
        (snapshot (runCalls Store.empty cs) now).1.total_users := by
  have hinv := storeInv_runCalls cs Store.empty storeInv_empty
  exact ⟨hinv.2, active_le_total_of_inv _ now hinv⟩

/-- C10 witness: the invariant and the inequality at a concrete one-call
run. -/
theorem lastseen_keys_known_witness :
    (((3 : Int), LastVal.ts 50).1 ∈
      (runCalls Store.empty [Call.record 3 false 50]).users)
    ∧ (snapshot (runCalls Store.empty [Call.record 3 false 50])
          50).1.active_users_5m ≤
        (snapshot (runCalls Store.empty [Call.record 3 false 50])
          50).1.total_users :=
  ⟨(lastseen_keys_known [Call.record 3 false 50] 50).1 (3, LastVal.ts 50)
      (by decide),
   (lastseen_keys_known [Call.record 3 false 50] 50).2⟩
